import Mathlib

/-!
Shallow embedding of the bucket compaction engine (package `compactor`,
`compact.go`) together with proofs of its stated properties.

Modelling conventions:
* Machine integers are `Nat`/`Int`; a ULID is modelled as a `Nat` whose zero
  value is the zero ULID.
* Go errors are modelled by the inductive `GoError`.  `errors.Wrap` from
  `pkg/errors` is the `wrap` constructor (the only constructor that the
  `errors.Cause` unwrapping traverses, since none of the local classified
  error types implement a `Cause` method).  The classified wrappers
  `HaltError`, `RetryError`, `Issue347Error`, `OutOfOrderChunksError` and the
  aggregate `errutil.NonNilMultiError` are constructors of the same type.
* Go maps are modelled as association lists whose keys are unique (the Go
  runtime guarantees key uniqueness); `delete(m, k)` is modelled by filtering
  the key out.
* External collaborators (object store, TSDB merger, planner, metadata
  fetcher) are oracles: fields of an environment structure that return the
  outcome of the corresponding call.
* `concurrency.ForEach` is modelled sequentially in slice order, the first
  error aborting the loop; the framework surfaces a single error.
-/

/-- A ULID; the zero value is the zero ULID `ulid.ULID{}`. -/
abbrev ULID := Nat

/-- The zero ULID `ulid.ULID{}`. -/
def zeroULID : ULID := 0

/-- An external label set (`labels.Labels`), as a list of name/value pairs. -/
abbrev Labels := List (String × String)

/-- Model of Go errors as used by the compactor.  `base` is an opaque
error, `wrap` is `errors.Wrap`/`errors.Wrapf` from `pkg/errors`, and the
remaining constructors are the classified error types of `compact.go`
together with `errutil.NonNilMultiError`. -/
inductive GoError where
  | base (msg : String)
  | wrap (msg : String) (err : GoError)
  | HaltError (err : GoError)
  | RetryError (err : GoError)
  | Issue347Error (err : GoError) (id : ULID)
  | OutOfOrderChunksError (err : GoError) (id : ULID)
  | NonNilMultiError (errs : List GoError)
deriving Repr

/-- `errors.Cause`: unwrap `errors.Wrap` wrappers until an error that does
not implement `Cause() error` is reached.  Of the modelled constructors only
`wrap` implements `Cause`. -/
def cause : GoError → GoError
  | .wrap _ e => cause e
  | e => e

/-- The loop-body test of `IsHaltError` on one child of a multi-error:
`_, ok := errors.Cause(err).(HaltError)`. -/
def isHaltChild (e : GoError) : Bool :=
  match cause e with
  | .HaltError _ => true
  | _ => false

/-- The loop-body test of `IsRetryError` on one child of a multi-error:
`_, ok := errors.Cause(err).(RetryError)`. -/
def isRetryChild (e : GoError) : Bool :=
  match cause e with
  | .RetryError _ => true
  | _ => false

/-- `IsHaltError`: if the cause is a `NonNilMultiError`, any halt child makes
it true; otherwise true iff the cause is a `HaltError`. -/
def IsHaltError (err : GoError) : Bool :=
  match cause err with
  | .NonNilMultiError errs => errs.any isHaltChild
  | .HaltError _ => true
  | _ => false

/-- `IsRetryError`: if the cause is a `NonNilMultiError`, all children must be
retry children; otherwise true iff the cause is a `RetryError`. -/
def IsRetryError (err : GoError) : Bool :=
  match cause err with
  | .NonNilMultiError errs => errs.all isRetryChild
  | .RetryError _ => true
  | _ => false

/-- `halt(err)`: wrap an error as a `HaltError`. -/
def halt (err : GoError) : GoError := .HaltError err

/-- `retry(err)`: wrap an error as a `RetryError`, unless it already is
Halt-classified, in which case it is returned unchanged. -/
def retry (err : GoError) : GoError :=
  if IsHaltError err then err else .RetryError err

/-- `issue347Error(err, brokenBlock)`. -/
def issue347Error (err : GoError) (brokenBlock : ULID) : GoError :=
  .Issue347Error err brokenBlock

/-- `outOfOrderChunkError(err, brokenBlock)`. -/
def outOfOrderChunkError (err : GoError) (brokenBlock : ULID) : GoError :=
  .OutOfOrderChunksError err brokenBlock

/-- Block metadata (`metadata.Meta`), restricted to the fields the compactor
consults: the block ULID, time bounds, `Stats.NumSamples`, the downsampling
resolution `Thanos.Downsample.Resolution` and external labels `Thanos.Labels`. -/
structure Meta where
  ulid : ULID
  minTime : Int
  maxTime : Int
  numSamples : Nat
  resolution : Int
  lbls : Labels
deriving Repr, DecidableEq

/-- The in-memory snapshot `Syncer.blocks`: a map from block ID to meta,
modelled as an association list with unique keys. -/
abbrev BlockMap := List (ULID × Meta)

/-- Environment of one `Syncer.GarbageCollect` call.  `ctxCancelled n` is
whether `ctx.Err() != nil` at the top of the n-th loop iteration;
`markForDeletion id` is the outcome of `block.MarkForDeletion` for `id`
(performed on a detached five-minute context, hence not affected by
`ctx`). -/
structure GCEnv where
  ctxCancelled : Nat → Bool
  markForDeletion : ULID → Option GoError

/-- The sentinel error returned by `ctx.Err()` of a cancelled context
(`context.Canceled`), a plain unclassified error. -/
def ctxCanceledErr : GoError := .base "context canceled"

/-- The garbage IDs of `GarbageCollect`: the duplicate IDs minus those
already present in the deletion-mark map. -/
def garbageIDs (duplicateIDs deletionMarked : List ULID) : List ULID :=
  duplicateIDs.filter (fun id => !(deletionMarked.contains id))

/-- The main loop of `GarbageCollect` over the garbage IDs: check `ctx.Err()`,
mark the block for deletion (any failure aborts with `retry(Wrapf(err))`),
and on success delete the block from the in-memory snapshot. -/
def gcLoop (env : GCEnv) : List ULID → Nat → BlockMap → BlockMap × Option GoError
  | [], _, blocks => (blocks, none)
  | id :: rest, step, blocks =>
    if env.ctxCancelled step then (blocks, some ctxCanceledErr)
    else
      match env.markForDeletion id with
      | some e => (blocks, some (retry (.wrap "mark block for deletion" e)))
      | none => gcLoop env rest (step + 1) (blocks.filter (fun p => p.1 != id))

/-- `Syncer.GarbageCollect`, given the duplicate IDs reported by the
deduplicate filter, the deletion-marked IDs reported by the
ignore-deletion-mark filter, and the current snapshot.  Returns the updated
snapshot and the returned error. -/
def GarbageCollect (env : GCEnv) (duplicateIDs deletionMarked : List ULID)
    (blocks : BlockMap) : BlockMap × Option GoError :=
  gcLoop env (garbageIDs duplicateIDs deletionMarked) 0 blocks

/-- A compaction job.  The `Job` implementation file is not part of the
sources at hand; the fields mirror the accessors used by `compact.go`
(`Key`, `Labels`, `Resolution`, `UseSplitting`, `SplittingShards`,
`metasByMinTime`). -/
structure Job where
  userID : String
  key : String
  lbls : Labels
  resolution : Int
  hashFunc : String
  useSplitting : Bool
  splittingShards : Nat
  shardingKey : String
  metasByMinTime : List Meta
deriving Repr

/-- `NewJob`: a fresh job with no metas. -/
def NewJob (userID key : String) (lbls : Labels) (resolution : Int)
    (hashFunc : String) (useSplitting : Bool) (splittingShards : Nat)
    (shardingKey : String) : Job :=
  ⟨userID, key, lbls, resolution, hashFunc, useSplitting, splittingShards,
    shardingKey, []⟩

/-- Modelled from the spec: `Job.AppendMeta` (the `Job` implementation file is
missing from the sources).  Section 4.E of the spec: within a group the
grouper "appends metas in their natural order", so the meta is appended to
the meta sequence of the job; no failure occurs. -/
def Job.appendMeta (j : Job) (m : Meta) : Job :=
  { j with metasByMinTime := j.metasByMinTime ++ [m] }

/-- `BucketCompactor.filterOwnJobs`: keep exactly the jobs for which
`ownJob` answers true, in order; the first `ownJob` error aborts with
`(nil, errors.Wrap(err, "ownJob"))`. -/
def filterOwnJobs (ownJob : Job → Except GoError Bool) :
    List Job → Except GoError (List Job)
  | [] => .ok []
  | j :: rest =>
    match ownJob j with
    | .error e => .error (.wrap "ownJob" e)
    | .ok false => filterOwnJobs ownJob rest
    | .ok true =>
      match filterOwnJobs ownJob rest with
      | .error e => .error e
      | .ok js => .ok (j :: js)

/-- A no-compact marker (`metadata.NoCompactMark`), reduced to its reason. -/
structure NoCompactMark where
  reason : String
deriving Repr, DecidableEq

/-- Outcome of `metadata.ReadMarker` for one block: the parsed marker, the
sentinel `metadata.ErrorMarkerNotFound`, the sentinel
`metadata.ErrorUnmarshalMarker` (compared via `errors.Cause`), or any other
error. -/
inductive ReadMarkerResult where
  | ok (m : NoCompactMark)
  | markerNotFound
  | unmarshalMarkerErr
  | otherErr (e : GoError)
deriving Repr

/-- Environment of one `NoCompactionMarkFilter.Filter` call. -/
structure NoCompactEnv where
  readMarker : ULID → ReadMarkerResult
  removeNoCompactBlocks : Bool

/-- The per-block pass of `NoCompactionMarkFilter.Filter` over the
pre-collected IDs (sequential model of `concurrency.ForEach`): a missing
marker is ignored, an unparseable marker is logged at WARN and ignored, any
other read error aborts; a parsed marker is recorded and, if configured, the
block is deleted from the meta map. -/
def noCompactLoop (env : NoCompactEnv) :
    List ULID → List (ULID × NoCompactMark) → BlockMap →
      List (ULID × NoCompactMark) × BlockMap × Option GoError
  | [], marked, metas => (marked, metas, none)
  | id :: rest, marked, metas =>
    match env.readMarker id with
    | .markerNotFound => noCompactLoop env rest marked metas
    | .unmarshalMarkerErr => noCompactLoop env rest marked metas
    | .otherErr e => (marked, metas, some e)
    | .ok m =>
      noCompactLoop env rest (marked ++ [(id, m)])
        (if env.removeNoCompactBlocks then metas.filter (fun p => p.1 != id)
         else metas)

/-- `NoCompactionMarkFilter.Filter`: reset the marked map, probe the marker
of every block of the meta map, and wrap a failure of the pass.  Returns the
new `noCompactMarkedMap`, the updated meta map and the returned error. -/
def FilterNoCompactMarks (env : NoCompactEnv) (metas : BlockMap) :
    List (ULID × NoCompactMark) × BlockMap × Option GoError :=
  match noCompactLoop env (metas.map Prod.fst) [] metas with
  | (marked, metas2, err) =>
    (marked, metas2, err.map (.wrap "filter blocks marked for no compaction" ·))

/-- Decimal rendering of a natural number, least significant digit last:
the model of the `%v`/`%d` formatting used by `fmt.Sprintf` in
`defaultGroupKey`. -/
def natDigits (n : Nat) : List Char :=
  if n < 10 then [Nat.digitChar n]
  else natDigits (n / 10) ++ [Nat.digitChar (n % 10)]
decreasing_by exact Nat.div_lt_self (by omega) (by omega)

/-- Decimal rendering of an integer (`%d` of a signed integer): a minus sign
followed by the decimal digits when negative. -/
def intChars : Int → List Char
  | .ofNat m => natDigits m
  | .negSucc m => '-' :: natDigits (m + 1)

/-- `defaultGroupKey(res, lbls)`, with the label hash already computed:
`fmt.Sprintf("%d@%v", res, lbls.Hash())`. -/
def defaultGroupKey (res : Int) (h : Nat) : String :=
  ⟨intChars res ++ '@' :: natDigits h⟩

/-- `DefaultGroupKey(meta.Thanos)` of a block meta.  `hashL` models
`labels.Hash()` (an external xxhash of the sorted label set). -/
def DefaultGroupKey (hashL : Labels → Nat) (m : Meta) : String :=
  defaultGroupKey m.resolution (hashL m.lbls)

/-- The loop body of `DefaultGrouper.Groups`: look the group key of the block
up; if no job exists yet, create one via `NewJob` (no splitting, no
sharding) and append it to the result; then `AppendMeta` the block to the
job of its key. -/
def groupsLoop (hashL : Labels → Nat) (userID : String) :
    List Meta → List Job → List Job
  | [], acc => acc
  | m :: rest, acc =>
    let groupKey := DefaultGroupKey hashL m
    if acc.any (fun j => j.key == groupKey) then
      groupsLoop hashL userID rest
        (acc.map (fun j => if j.key == groupKey then j.appendMeta m else j))
    else
      groupsLoop hashL userID rest
        (acc ++ [(NewJob userID groupKey m.lbls m.resolution "" false 0
          "").appendMeta m])

/-- `DefaultGrouper.Groups`: partition the blocks by group key, then sort the
jobs by `Key` ascending (`sort.Slice`, modelled by `mergeSort`).  The map
iteration order of Go is the order of the input list; the proved properties
hold for every order. -/
def Groups (hashL : Labels → Nat) (userID : String) (blocks : List Meta) :
    Except GoError (List Job) :=
  .ok ((groupsLoop hashL userID blocks []).mergeSort
    (fun a b => decide (a.key ≤ b.key)))

/-- Index health statistics of a downloaded block
(`block.GatherIndexHealthStats` outcome), reduced to the four error
accessors consulted by `runCompactionJob`. -/
structure HealthStats where
  criticalErr : Option GoError
  outOfOrderChunksErr : Option GoError
  issue347OutsideChunksErr : Option GoError
  prometheusIssue5372Err : Option GoError

/-- Environment of one `BucketCompactor.runCompactionJob` call: outcomes of
every external operation the job performs.  `injectThanos` returns the
`MinTime`/`MaxTime` of the finalized output meta. -/
structure JobEnv where
  mkdirAll : Option GoError
  plan : List Meta → Except GoError (List Meta)
  download : Meta → Option GoError
  gatherIndexHealthStats : Meta → Except GoError HealthStats
  compact : Except GoError ULID
  compactWithSplitting : Except GoError (List ULID)
  injectThanos : Nat → ULID → Except GoError (Int × Int)
  removeTombstones : ULID → Option GoError
  verifyIndex : ULID → Int → Int → Option GoError
  upload : ULID → Option GoError
  removeAllDir : ULID → Option GoError
  markForDeletion : ULID → Option GoError

/-- Observable operations of a compaction job on the bucket: a successful
upload of an output block, and the issuing of a mark-for-deletion of a block
(the invocation of `deleteBlock`). -/
inductive Event where
  | uploaded (id : ULID)
  | markForDeletion (id : ULID)
deriving Repr, DecidableEq

/-- The download-and-verify closure run for one planned block: download
(failure wrapped as Retry), gather index health stats, then classify:
critical error as Halt, out-of-order chunks as `OutOfOrderChunksError`,
Issue-347 chunks as `Issue347Error`, Prometheus-5372 as a plain wrapped
error. -/
def checkBlock (env : JobEnv) (meta : Meta) : Option GoError :=
  match env.download meta with
  | some e => some (retry (.wrap "download block" e))
  | none =>
    match env.gatherIndexHealthStats meta with
    | .error e => some (.wrap "gather index issues for block" e)
    | .ok stats =>
      match stats.criticalErr with
      | some e => some (halt (.wrap "block with not healthy index found" e))
      | none =>
        match stats.outOfOrderChunksErr with
        | some e =>
          some (outOfOrderChunkError
            (.wrap "blocks with out-of-order chunks are dropped from compaction" e)
            meta.ulid)
        | none =>
          match stats.issue347OutsideChunksErr with
          | some e => some (issue347Error (.wrap "invalid, but reparable block" e) meta.ulid)
          | none =>
            match stats.prometheusIssue5372Err with
            | some e => some (.wrap "block id" e)
            | none => none

/-- Sequential model of the `concurrency.ForEach` download pass: the first
failing block aborts the pass with its error. -/
def forEachCheck (env : JobEnv) : List Meta → Option GoError
  | [] => none
  | m :: rest =>
    match checkBlock env m with
    | some e => some e
    | none => forEachCheck env rest

/-- The merge step: `CompactWithSplitting` when the job uses splitting,
otherwise `Compact` with its single output ID appended to an empty slice. -/
def mergeStep (env : JobEnv) (job : Job) : Except GoError (List ULID) :=
  if job.useSplitting then env.compactWithSplitting
  else
    match env.compact with
    | .error e => .error e
    | .ok compID => .ok [compID]

/-- `hasNonZeroULIDs`: whether any of the IDs differs from the zero ULID. -/
def hasNonZeroULIDs (ids : List ULID) : Bool :=
  ids.any (fun id => id != zeroULID)

/-- The finalize-and-upload closure for one output (shard index and block
ID): skip the zero ULID; inject the Thanos meta (external labels plus shard
label when splitting), remove the tombstones file, verify the output index
(failure is Halt), and upload (failure is Retry).  Returns the emitted
events and the error. -/
def uploadOne (env : JobEnv) (shardID : Nat) (compID : ULID) :
    List Event × Option GoError :=
  if compID == zeroULID then ([], none)
  else
    match env.injectThanos shardID compID with
    | .error e => ([], some (.wrap "failed to finalize the block" e))
    | .ok newMeta =>
      match env.removeTombstones compID with
      | some e => ([], some (.wrap "remove tombstones" e))
      | none =>
        match env.verifyIndex compID newMeta.1 newMeta.2 with
        | some e => ([], some (halt (.wrap "invalid result block" e)))
        | none =>
          match env.upload compID with
          | some e => ([], some (retry (.wrap "upload of block failed" e)))
          | none => ([Event.uploaded compID], none)

/-- Sequential model of the `concurrency.ForEach` upload pass over the
enumerated output IDs: the first failure aborts with its error. -/
def uploadLoop (env : JobEnv) : List (Nat × ULID) → List Event × Option GoError
  | [] => ([], none)
  | (i, id) :: rest =>
    match uploadOne env i id with
    | (evs, some e) => (evs, some e)
    | (evs, none) =>
      match uploadLoop env rest with
      | (evs2, r) => (evs ++ evs2, r)

/-- `deleteBlock`: remove the local block directory, then mark the block for
deletion in the bucket on a detached five-minute context. -/
def deleteBlock (env : JobEnv) (id : ULID) : Option GoError :=
  match env.removeAllDir id with
  | some e => some (.wrap "remove old block dir" e)
  | none =>
    match env.markForDeletion id with
    | some e => some (.wrap "mark block for deletion from bucket" e)
    | none => none

/-- The retire pass of `runCompactionJob`: `deleteBlock` every input block of
the plan; the first failure aborts with `retry(Wrapf(err))`.  Every
`deleteBlock` invocation emits a `markForDeletion` event. -/
def retireLoop (env : JobEnv) : List Meta → List Event × Option GoError
  | [] => ([], none)
  | m :: rest =>
    match deleteBlock env m.ulid with
    | some e =>
      ([Event.markForDeletion m.ulid],
        some (retry (.wrap "mark old block for deletion from bucket" e)))
    | none =>
      match retireLoop env rest with
      | (evs, r) => (Event.markForDeletion m.ulid :: evs, r)

/-- The empty-result branch of `runCompactionJob`: `deleteBlock` every input
block whose `NumSamples` is zero; failures are logged at WARN and ignored,
so only the issuing events are observable. -/
def pruneEmptyBlocks (toCompact : List Meta) : List Event :=
  (toCompact.filter (fun m => m.numSamples == 0)).map
    (fun m => Event.markForDeletion m.ulid)

/-- Result of `runCompactionJob`: the emitted events, `shouldRerun`, the
compacted block IDs and the returned error. -/
structure RunResult where
  trace : List Event
  shouldRerun : Bool
  compIDs : List ULID
  err : Option GoError
deriving Repr

/-- `BucketCompactor.runCompactionJob`: create the work directory, plan,
download and verify the inputs, merge, and either prune empty inputs (when
every output ID is the zero ULID), or finalize-verify-upload every non-zero
output and only then mark every input of the plan for deletion. -/
def runCompactionJob (env : JobEnv) (job : Job) : RunResult :=
  match env.mkdirAll with
  | some e => ⟨[], false, [], some (.wrap "create compaction job dir" e)⟩
  | none =>
    match env.plan job.metasByMinTime with
    | .error e => ⟨[], false, [], some (.wrap "plan compaction" e)⟩
    | .ok toCompact =>
      if toCompact.isEmpty then ⟨[], false, [], none⟩
      else
        match forEachCheck env toCompact with
        | some e => ⟨[], false, [], some e⟩
        | none =>
          match mergeStep env job with
          | .error e => ⟨[], false, [], some (halt (.wrap "compact blocks" e))⟩
          | .ok compIDs =>
            if !(hasNonZeroULIDs compIDs) then
              ⟨pruneEmptyBlocks toCompact, true, [], none⟩
            else
              match uploadLoop env compIDs.enum with
              | (evs, some e) => ⟨evs, false, [], some e⟩
              | (evs, none) =>
                match retireLoop env toCompact with
                | (revs, some e) => ⟨evs ++ revs, false, [], some e⟩
                | (revs, none) => ⟨evs ++ revs, true, compIDs, none⟩

/-- A concrete empty block meta (zero samples). -/
def meta1 : Meta := ⟨1, 0, 100, 0, 0, [("tenant", "a")]⟩

/-- A concrete non-empty block meta. -/
def meta2 : Meta := ⟨2, 100, 200, 5, 0, [("tenant", "a")]⟩

/-- A further concrete block meta. -/
def meta3 : Meta := ⟨3, 200, 300, 7, 0, [("tenant", "b")]⟩

/-- Health stats of a fully healthy block. -/
def okStats : HealthStats := ⟨none, none, none, none⟩

/-- A garbage-collection environment whose context is cancelled from the
start and whose mark writes would all succeed. -/
def gcCancelEnv : GCEnv := ⟨fun _ => true, fun _ => none⟩

/-- A garbage-collection environment whose mark writes all fail with a plain
bucket error. -/
def gcMarkFailEnv : GCEnv := ⟨fun _ => false, fun _ => some (.base "bucket unavailable")⟩

/-- A garbage-collection environment that marks block 2 unsuccessfully and
every other block successfully. -/
def gcPartialEnv : GCEnv :=
  ⟨fun _ => false, fun id => if id == 2 then some (.base "bucket unavailable") else none⟩

/-- A concrete job used to exercise `runCompactionJob` (no splitting). -/
def job0 : Job := ⟨"user", "0@1", [("tenant", "a")], 0, "", false, 0, "", [meta1, meta2]⟩

/-- A job environment in which every stage succeeds and the merge finds that
the compacted block would have no samples (`Compact` returns the zero
ULID). -/
def jobEnvAllZero : JobEnv :=
  { mkdirAll := none
    plan := fun _ => .ok [meta1, meta2]
    download := fun _ => none
    gatherIndexHealthStats := fun _ => .ok okStats
    compact := .ok zeroULID
    compactWithSplitting := .error (.base "not used")
    injectThanos := fun _ _ => .ok (0, 200)
    removeTombstones := fun _ => none
    verifyIndex := fun _ _ _ => none
    upload := fun _ => none
    removeAllDir := fun _ => none
    markForDeletion := fun _ => none }

/-- A job environment in which the merge produces block 7 and its upload
fails with a transient bucket error. -/
def jobEnvUploadFail : JobEnv :=
  { jobEnvAllZero with
    compact := .ok 7
    upload := fun _ => some (.base "bucket 500") }

/-- Concrete jobs for the ownership filter. -/
def jobA : Job := NewJob "u" "a" [] 0 "" false 0 ""

/-- Concrete jobs for the ownership filter. -/
def jobB : Job := NewJob "u" "b" [] 0 "" false 0 ""

/-- Concrete jobs for the ownership filter. -/
def jobC : Job := NewJob "u" "c" [] 0 "" false 0 ""

/-- A concrete ownership check: owns `jobA`, does not own `jobB`, fails on
every other job. -/
def ownABC : Job → Except GoError Bool := fun j =>
  if j.key == "a" then .ok true
  else if j.key == "b" then .ok false
  else .error (.base "ring unavailable")

/-- A no-compact filter environment: marker of block 1 missing, marker of
block 2 unparseable, every other marker present; removal enabled. -/
def noCompactEnv0 : NoCompactEnv :=
  ⟨fun id =>
    if id == 1 then .markerNotFound
    else if id == 2 then .unmarshalMarkerErr
    else .ok ⟨"out-of-order chunks"⟩, true⟩

/-! Helper lemmas about the error classification. -/

/-- Wrapping does not change the cause. -/
theorem cause_wrap (m : String) (e : GoError) : cause (.wrap m e) = cause e := rfl

/-- Wrapping does not change the Halt classification. -/
theorem isHaltError_wrap (m : String) (e : GoError) :
    IsHaltError (.wrap m e) = IsHaltError e := rfl

/-- `retry` of an error that is not Halt-classified is Retry-classified and
not Halt-classified. -/
theorem retry_not_halt_classification (e : GoError) (h : IsHaltError e = false) :
    IsRetryError (retry e) = true ∧ IsHaltError (retry e) = false := by
  have hr : retry e = .RetryError e := by unfold retry; rw [h]; rfl
  rw [hr]
  exact ⟨rfl, rfl⟩

/-- Claim C3: on a non-empty multi-error aggregate, `IsHaltError` holds iff
some child has a `HaltError` cause and `IsRetryError` holds iff every child
has a `RetryError` cause; a multi-error of one Retry child and one Halt
child is Halt and not Retry; and on an error whose cause is not a
multi-error, each predicate holds iff the cause is the corresponding
classified type. -/
theorem errorClassification_laws (errs : List GoError) (_hne : errs ≠ [])
    (e1 e2 e : GoError) (hnm : ∀ l, cause e ≠ .NonNilMultiError l) :
    (IsHaltError (.NonNilMultiError errs) = true ↔ ∃ c ∈ errs, isHaltChild c = true)
    ∧ (IsRetryError (.NonNilMultiError errs) = true ↔ ∀ c ∈ errs, isRetryChild c = true)
    ∧ IsHaltError (.NonNilMultiError [.RetryError e1, .HaltError e2]) = true
    ∧ IsRetryError (.NonNilMultiError [.RetryError e1, .HaltError e2]) = false
    ∧ (IsHaltError e = true ↔ ∃ c, cause e = .HaltError c)
    ∧ (IsRetryError e = true ↔ ∃ c, cause e = .RetryError c) := by
  refine ⟨?_, ?_, rfl, rfl, ?_, ?_⟩
  · rw [show IsHaltError (.NonNilMultiError errs) = errs.any isHaltChild from rfl]
    simp [List.any_eq_true]
  · rw [show IsRetryError (.NonNilMultiError errs) = errs.all isRetryChild from rfl]
    simp [List.all_eq_true]
  · cases hc : cause e
    case NonNilMultiError l => exact absurd hc (hnm l)
    all_goals simp [IsHaltError, hc]
  · cases hc : cause e
    case NonNilMultiError l => exact absurd hc (hnm l)
    all_goals simp [IsRetryError, hc]

/-- Witness for claim C3 at a concrete non-empty aggregate and a concrete
wrapped error. -/
theorem errorClassification_laws_witness :
    (IsHaltError (.NonNilMultiError [.HaltError (.base "a")]) = true
      ↔ ∃ c ∈ [GoError.HaltError (.base "a")], isHaltChild c = true)
    ∧ (IsRetryError (.NonNilMultiError [.HaltError (.base "a")]) = true
      ↔ ∀ c ∈ [GoError.HaltError (.base "a")], isRetryChild c = true)
    ∧ IsHaltError (.NonNilMultiError [.RetryError (.base "x"), .HaltError (.base "y")]) = true
    ∧ IsRetryError (.NonNilMultiError [.RetryError (.base "x"), .HaltError (.base "y")]) = false
    ∧ (IsHaltError (.wrap "m" (.RetryError (.base "z"))) = true
      ↔ ∃ c, cause (.wrap "m" (.RetryError (.base "z"))) = .HaltError c)
    ∧ (IsRetryError (.wrap "m" (.RetryError (.base "z"))) = true
      ↔ ∃ c, cause (.wrap "m" (.RetryError (.base "z"))) = .RetryError c) :=
  errorClassification_laws [.HaltError (.base "a")] (by simp) (.base "x") (.base "y")
    (.wrap "m" (.RetryError (.base "z"))) (by intro l h; simp [cause] at h)

/-- Claim C6: `retry` returns an error whose cause is a `HaltError`
unchanged, so wrapping a Halt-classified error with `retry` never converts
it into a Retry-classified error. -/
theorem retry_preserves_halt (e c : GoError) (h : cause e = .HaltError c) :
    retry e = e := by
  have hH : IsHaltError e = true := by simp [IsHaltError, h]
  simp [retry, hH]

/-- Witness for claim C6 at a concrete halt error. -/
theorem retry_preserves_halt_witness :
    cause (GoError.HaltError (.base "corrupt index")) = .HaltError (.base "corrupt index")
    ∧ retry (GoError.HaltError (.base "corrupt index"))
        = GoError.HaltError (.base "corrupt index") :=
  ⟨rfl, retry_preserves_halt _ _ rfl⟩

/-- Claim C10: on an empty `NonNilMultiError`, `IsRetryError` is vacuously
true and `IsHaltError` is vacuously false. -/
theorem emptyMultiError_vacuous :
    IsRetryError (.NonNilMultiError []) = true
    ∧ IsHaltError (.NonNilMultiError []) = false :=
  ⟨rfl, rfl⟩

/-! Garbage collection. -/

/-- Error classification of the errors the GC loop can return. -/
theorem gcLoop_error_classification (env : GCEnv)
    (hmark : ∀ id e2, env.markForDeletion id = some e2 → IsHaltError e2 = false) :
    ∀ ids step blocks blocks2 e,
      gcLoop env ids step blocks = (blocks2, some e) →
      (e = ctxCanceledErr ∧ IsRetryError e = false)
      ∨ (IsRetryError e = true ∧ IsHaltError e = false) := by
  intro ids
  induction ids with
  | nil => intro step blocks blocks2 e h; simp [gcLoop] at h
  | cons id rest ih =>
    intro step blocks blocks2 e h
    unfold gcLoop at h
    by_cases hc : env.ctxCancelled step
    · rw [if_pos hc] at h
      injection h with h1 h2
      injection h2 with h2
      exact Or.inl ⟨h2.symm, h2 ▸ rfl⟩
    · rw [if_neg hc] at h
      cases hm : env.markForDeletion id with
      | some e2 =>
        simp only [hm] at h
        injection h with h1 h2
        injection h2 with h2
        have hw : IsHaltError (.wrap "mark block for deletion" e2) = false := by
          rw [isHaltError_wrap]; exact hmark id e2 hm
        obtain ⟨hr, hh⟩ := retry_not_halt_classification _ hw
        exact Or.inr ⟨h2 ▸ hr, h2 ▸ hh⟩
      | none =>
        simp only [hm] at h
        exact ih (step + 1) _ blocks2 e h

/-- Counterexample to claim C2: a `GarbageCollect` call aborted by
cancellation of the supplied context returns `ctx.Err()` itself, which is
not Retry-classified. -/
theorem garbageCollect_cancel_not_retry :
    (GarbageCollect gcCancelEnv [1] [] []).2 = some ctxCanceledErr
    ∧ IsRetryError ctxCanceledErr = false :=
  ⟨rfl, rfl⟩

/-- Claim C2 (amended): a non-nil error of `Syncer.GarbageCollect` caused by
a mark-for-deletion write whose underlying error is not Halt-classified is
Retry-classified and not Halt-classified, while an abort caused by
cancellation of the supplied context returns the context error itself,
which is not Retry-classified. -/
theorem garbageCollect_error_classification (env : GCEnv)
    (duplicateIDs deletionMarked : List ULID) (blocks blocks2 : BlockMap)
    (e : GoError)
    (hmark : ∀ id e2, env.markForDeletion id = some e2 → IsHaltError e2 = false)
    (h : GarbageCollect env duplicateIDs deletionMarked blocks = (blocks2, some e)) :
    (e = ctxCanceledErr ∧ IsRetryError e = false)
    ∨ (IsRetryError e = true ∧ IsHaltError e = false) :=
  gcLoop_error_classification env hmark _ _ _ _ _ h

/-- Witness for claim C2 (amended) at a concrete failing mark write. -/
theorem garbageCollect_error_classification_witness :
    (GoError.RetryError (.wrap "mark block for deletion" (.base "bucket unavailable"))
        = ctxCanceledErr
      ∧ IsRetryError (GoError.RetryError
          (.wrap "mark block for deletion" (.base "bucket unavailable"))) = false)
    ∨ (IsRetryError (GoError.RetryError
          (.wrap "mark block for deletion" (.base "bucket unavailable"))) = true
      ∧ IsHaltError (GoError.RetryError
          (.wrap "mark block for deletion" (.base "bucket unavailable"))) = false) :=
  garbageCollect_error_classification gcMarkFailEnv [1] [] [] [] _
    (fun _ e2 h => by injection h with h2; rw [← h2]; rfl) rfl

/-- Keys of a key-filtered map are keys of the map differing from the
filtered key. -/
theorem mem_keys_filter_ne (bs : BlockMap) (id x : ULID) :
    x ∈ (bs.filter (fun p => p.1 != id)).map Prod.fst →
      x ∈ bs.map Prod.fst ∧ x ≠ id := by
  intro hx
  simp only [List.mem_map, List.mem_filter, bne_iff_ne] at hx
  obtain ⟨p, ⟨hp, hne⟩, hfst⟩ := hx
  exact ⟨List.mem_map.mpr ⟨p, hp, hfst⟩, hfst ▸ hne⟩

/-- Keys of the fold of key-filters are keys of the starting map. -/
theorem mem_keys_foldl_filter :
    ∀ (p : List ULID) (bs : BlockMap) (x : ULID),
      x ∈ ((p.foldl (fun bs2 id => bs2.filter (fun q => q.1 != id)) bs).map Prod.fst) →
        x ∈ bs.map Prod.fst := by
  intro p
  induction p with
  | nil => intro bs x hx; simpa using hx
  | cons id rest ih =>
    intro bs x hx
    rw [List.foldl_cons] at hx
    exact (mem_keys_filter_ne bs id x (ih _ x hx)).1

/-- The head filter of the fold removes its key for good. -/
theorem not_mem_keys_foldl_filter_head (p : List ULID) (bs : BlockMap) (id : ULID) :
    id ∉ ((p.foldl (fun bs2 id2 => bs2.filter (fun q => q.1 != id2))
      (bs.filter (fun q => q.1 != id))).map Prod.fst) := by
  intro hx
  exact (mem_keys_filter_ne bs id id (mem_keys_foldl_filter p _ id hx)).2 rfl

/-- On an error return, the GC loop has processed a prefix of the garbage
IDs: each prefix ID was marked successfully and deleted from the snapshot,
and remains absent from the returned snapshot. -/
theorem gcLoop_partial_progress (env : GCEnv) :
    ∀ ids step blocks blocks2 e,
      gcLoop env ids step blocks = (blocks2, some e) →
      ∃ p rest, ids = p ++ rest
        ∧ (∀ id ∈ p, env.markForDeletion id = none)
        ∧ blocks2 = p.foldl (fun bs id => bs.filter (fun q => q.1 != id)) blocks
        ∧ ∀ id ∈ p, id ∉ blocks2.map Prod.fst := by
  intro ids
  induction ids with
  | nil => intro step blocks blocks2 e h; simp [gcLoop] at h
  | cons id rest ih =>
    intro step blocks blocks2 e h
    unfold gcLoop at h
    by_cases hc : env.ctxCancelled step
    · rw [if_pos hc] at h
      injection h with h1 h2
      exact ⟨[], id :: rest, rfl, by simp, by simp [← h1], by simp⟩
    · rw [if_neg hc] at h
      cases hm : env.markForDeletion id with
      | some e2 =>
        simp only [hm] at h
        injection h with h1 h2
        exact ⟨[], id :: rest, rfl, by simp, by simp [← h1], by simp⟩
      | none =>
        simp only [hm] at h
        obtain ⟨p, rest2, hids, hmarks, hfold, hnot⟩ := ih (step + 1) _ blocks2 e h
        refine ⟨id :: p, rest2, by rw [hids]; rfl, ?_, ?_, ?_⟩
        · intro x hx
          rcases List.mem_cons.mp hx with hx1 | hx2
          · exact hx1 ▸ hm
          · exact hmarks x hx2
        · simpa [List.foldl_cons] using hfold
        · intro x hx
          rcases List.mem_cons.mp hx with hx1 | hx2
          · subst hx1
            rw [hfold]
            exact not_mem_keys_foldl_filter_head p blocks x
          · exact hnot x hx2

/-- Claim C8: `Syncer.GarbageCollect` is not atomic on failure: when it
returns an error, the successfully marked prefix of the garbage IDs remains
deleted from the in-memory snapshot, and the snapshot is not restored to
its pre-call state when any marked block was present in it. -/
theorem garbageCollect_not_atomic (env : GCEnv)
    (duplicateIDs deletionMarked : List ULID) (blocks blocks2 : BlockMap)
    (e : GoError)
    (h : GarbageCollect env duplicateIDs deletionMarked blocks = (blocks2, some e)) :
    ∃ p rest, garbageIDs duplicateIDs deletionMarked = p ++ rest
      ∧ (∀ id ∈ p, env.markForDeletion id = none)
      ∧ blocks2 = p.foldl (fun bs id => bs.filter (fun q => q.1 != id)) blocks
      ∧ (∀ id ∈ p, id ∉ blocks2.map Prod.fst)
      ∧ (∀ id ∈ p, id ∈ blocks.map Prod.fst → blocks2 ≠ blocks) := by
  obtain ⟨p, rest, h1, h2, h3, h4⟩ := gcLoop_partial_progress env _ _ _ _ _ h
  exact ⟨p, rest, h1, h2, h3, h4, fun id hp hk heq => (h4 id hp) (heq ▸ hk)⟩

/-- Witness for claim C8: block 1 is marked and removed, the mark of block 2
fails, and the returned snapshot still lacks block 1. -/
theorem garbageCollect_not_atomic_witness :
    ∃ p rest, garbageIDs [1, 2] [] = p ++ rest
      ∧ (∀ id ∈ p, gcPartialEnv.markForDeletion id = none)
      ∧ [(3, meta3)] = p.foldl (fun bs id => bs.filter (fun q => q.1 != id))
          [(1, meta1), (3, meta3)]
      ∧ (∀ id ∈ p, id ∉ ([(3, meta3)] : BlockMap).map Prod.fst)
      ∧ (∀ id ∈ p, id ∈ ([(1, meta1), (3, meta3)] : BlockMap).map Prod.fst →
          ([(3, meta3)] : BlockMap) ≠ [(1, meta1), (3, meta3)]) :=
  garbageCollect_not_atomic gcPartialEnv [1, 2] [] [(1, meta1), (3, meta3)]
    [(3, meta3)] _ rfl

/-! Ownership filtering. -/

/-- When every ownership check answers, `filterOwnJobs` is the filter by a
positive answer. -/
theorem filterOwnJobs_ok (own : Job → Except GoError Bool) :
    ∀ jobs : List Job, (∀ j ∈ jobs, ∃ b, own j = .ok b) →
      filterOwnJobs own jobs = .ok (jobs.filter fun j =>
        match own j with | .ok true => true | _ => false) := by
  intro jobs
  induction jobs with
  | nil => intro _; rfl
  | cons j rest ih =>
    intro h
    obtain ⟨b, hb⟩ := h j (List.mem_cons_self j rest)
    have hrest := ih (fun k hk => h k (List.mem_cons_of_mem j hk))
    cases b with
    | true => simp [filterOwnJobs, hb, hrest, List.filter_cons]
    | false => simp [filterOwnJobs, hb, hrest, List.filter_cons]

/-- The first ownership-check error aborts `filterOwnJobs` with that error
wrapped as "ownJob". -/
theorem filterOwnJobs_err (own : Job → Except GoError Bool) :
    ∀ (pre : List Job) (j : Job) (e : GoError) (post : List Job),
      (∀ k ∈ pre, ∃ b, own k = .ok b) → own j = .error e →
      filterOwnJobs own (pre ++ j :: post) = .error (.wrap "ownJob" e) := by
  intro pre
  induction pre with
  | nil =>
    intro j e post _ hj
    simp [filterOwnJobs, hj]
  | cons k pre2 ih =>
    intro j e post hpre hj
    obtain ⟨b, hb⟩ := hpre k (List.mem_cons_self k pre2)
    have hrest := ih j e post (fun x hx => hpre x (List.mem_cons_of_mem k hx)) hj
    cases b with
    | true => simp [filterOwnJobs, hb, hrest]
    | false => simp [filterOwnJobs, hb, hrest]

/-- Claim C9: `filterOwnJobs` returns, in order, exactly the jobs whose
ownership check answers true; the first check error makes it return nil and
that error (wrapped as "ownJob"). -/
theorem filterOwnJobs_spec (own : Job → Except GoError Bool) (jobs : List Job) :
    ((∀ j ∈ jobs, ∃ b, own j = .ok b) →
      filterOwnJobs own jobs = .ok (jobs.filter fun j =>
        match own j with | .ok true => true | _ => false))
    ∧ (∀ (pre : List Job) (j : Job) (e : GoError) (post : List Job),
        jobs = pre ++ j :: post →
        (∀ k ∈ pre, ∃ b, own k = .ok b) → own j = .error e →
        filterOwnJobs own jobs = .error (.wrap "ownJob" e)) :=
  ⟨filterOwnJobs_ok own jobs,
   fun pre j e post hjobs hpre hj =>
     hjobs ▸ filterOwnJobs_err own pre j e post hpre hj⟩

/-- Witness for claim C9: the owned job is kept, the unowned job is dropped,
and a failing check aborts with the wrapped error. -/
theorem filterOwnJobs_spec_witness :
    filterOwnJobs ownABC [jobA, jobB] = .ok ([jobA, jobB].filter fun j =>
      match ownABC j with | .ok true => true | _ => false)
    ∧ filterOwnJobs ownABC [jobA, jobC]
        = .error (.wrap "ownJob" (.base "ring unavailable")) :=
  ⟨(filterOwnJobs_spec ownABC [jobA, jobB]).1
      (by
        intro j hj
        rcases List.mem_cons.mp hj with rfl | hj2
        · exact ⟨true, rfl⟩
        · rcases List.mem_cons.mp hj2 with rfl | hj3
          · exact ⟨false, rfl⟩
          · exact absurd hj3 (List.not_mem_nil j)),
   (filterOwnJobs_spec ownABC [jobA, jobC]).2 [jobA] jobC (.base "ring unavailable") []
      rfl
      (by
        intro k hk
        rcases List.mem_cons.mp hk with rfl | hk2
        · exact ⟨true, rfl⟩
        · exact absurd hk2 (List.not_mem_nil k))
      rfl⟩

/-! The no-compact marker filter. -/

/-- A block whose marker probe answers "missing" or "unparseable" is never
added to the marked map and never removed from the meta map by the
no-compact loop. -/
theorem noCompactLoop_skips (env : NoCompactEnv) (id : ULID)
    (hid : env.readMarker id = .markerNotFound
      ∨ env.readMarker id = .unmarshalMarkerErr) :
    ∀ (ids : List ULID) (marked : List (ULID × NoCompactMark)) (metas : BlockMap),
      (id ∈ (noCompactLoop env ids marked metas).1.map Prod.fst →
        id ∈ marked.map Prod.fst)
      ∧ (id ∈ metas.map Prod.fst →
          id ∈ (noCompactLoop env ids marked metas).2.1.map Prod.fst) := by
  intro ids
  induction ids with
  | nil => intro marked metas; exact ⟨fun h => h, fun h => h⟩
  | cons i rest ih =>
    intro marked metas
    cases hm : env.readMarker i with
    | markerNotFound => simpa [noCompactLoop, hm] using ih marked metas
    | unmarshalMarkerErr => simpa [noCompactLoop, hm] using ih marked metas
    | otherErr e => exact ⟨by simp [noCompactLoop, hm], by simp [noCompactLoop, hm]⟩
    | ok m =>
      have hne : i ≠ id := by
        intro hi
        subst hi
        rcases hid with hid | hid <;> simp [hid] at hm
      refine ⟨fun h => ?_, fun h => ?_⟩
      · have := (ih (marked ++ [(i, m)]) _).1 (by simpa [noCompactLoop, hm] using h)
        simp only [List.map_append, List.mem_append] at this
        rcases this with h2 | h2
        · exact h2
        · simp at h2
          exact absurd h2.symm hne
      · have hmem : id ∈ (if env.removeNoCompactBlocks
            then metas.filter (fun p => p.1 != i) else metas).map Prod.fst := by
          by_cases hrm : env.removeNoCompactBlocks
          · rw [if_pos hrm]
            simp only [List.mem_map] at h ⊢
            obtain ⟨p, hp, hfst⟩ := h
            exact ⟨p, List.mem_filter.mpr ⟨hp, by simp [hfst, hne.symm]⟩, hfst⟩
          · rwa [if_neg hrm]
        simpa [noCompactLoop, hm] using (ih (marked ++ [(i, m)]) _).2 hmem

/-- When no marker probe fails with an unexpected error, the no-compact loop
returns no error. -/
theorem noCompactLoop_no_error (env : NoCompactEnv)
    (hok : ∀ id2 e, env.readMarker id2 ≠ .otherErr e) :
    ∀ (ids : List ULID) (marked : List (ULID × NoCompactMark)) (metas : BlockMap),
      (noCompactLoop env ids marked metas).2.2 = none := by
  intro ids
  induction ids with
  | nil => intro marked metas; rfl
  | cons i rest ih =>
    intro marked metas
    cases hm : env.readMarker i with
    | markerNotFound => simpa [noCompactLoop, hm] using ih marked metas
    | unmarshalMarkerErr => simpa [noCompactLoop, hm] using ih marked metas
    | otherErr e => exact absurd hm (hok i e)
    | ok m => simpa [noCompactLoop, hm] using ih (marked ++ [(i, m)]) _

/-- `FilterNoCompactMarks` in terms of the loop. -/
theorem filterNoCompactMarks_eq (env : NoCompactEnv) (metas : BlockMap) :
    FilterNoCompactMarks env metas
      = ((noCompactLoop env (metas.map Prod.fst) [] metas).1,
         (noCompactLoop env (metas.map Prod.fst) [] metas).2.1,
         ((noCompactLoop env (metas.map Prod.fst) [] metas).2.2).map
           (.wrap "filter blocks marked for no compaction" ·)) := by
  unfold FilterNoCompactMarks
  rcases noCompactLoop env (metas.map Prod.fst) [] metas with ⟨a, b, c⟩
  rfl

/-- Claim C7: a block whose no-compact marker is absent, or present but
unparseable, is not added to the marked map and not removed from the meta
map; such blocks never make `Filter` return an error (an error requires
some probe to fail with an unexpected error). -/
theorem noCompactFilter_tolerant (env : NoCompactEnv) (metas : BlockMap)
    (id : ULID)
    (hid : env.readMarker id = .markerNotFound
      ∨ env.readMarker id = .unmarshalMarkerErr) :
    (id ∉ (FilterNoCompactMarks env metas).1.map Prod.fst)
    ∧ (id ∈ metas.map Prod.fst →
        id ∈ (FilterNoCompactMarks env metas).2.1.map Prod.fst)
    ∧ ((∀ id2 e, env.readMarker id2 ≠ .otherErr e) →
        (FilterNoCompactMarks env metas).2.2 = none) := by
  rw [filterNoCompactMarks_eq]
  refine ⟨fun h => ?_, fun h => ?_, fun hok => ?_⟩
  · have := (noCompactLoop_skips env id hid (metas.map Prod.fst) [] metas).1 h
    simp at this
  · exact (noCompactLoop_skips env id hid (metas.map Prod.fst) [] metas).2 h
  · rw [noCompactLoop_no_error env hok]
    rfl

/-- Witness for claim C7: marker of block 1 missing in a three-block map
with removal enabled. -/
theorem noCompactFilter_tolerant_witness :
    (1 ∉ (FilterNoCompactMarks noCompactEnv0
        [(1, meta1), (2, meta2), (3, meta3)]).1.map Prod.fst)
    ∧ (1 ∈ (FilterNoCompactMarks noCompactEnv0
        [(1, meta1), (2, meta2), (3, meta3)]).2.1.map Prod.fst)
    ∧ ((FilterNoCompactMarks noCompactEnv0
        [(1, meta1), (2, meta2), (3, meta3)]).2.2 = none) :=
  have h := noCompactFilter_tolerant noCompactEnv0
    [(1, meta1), (2, meta2), (3, meta3)] 1 (Or.inl rfl)
  ⟨h.1, h.2.1 (by simp), h.2.2 (by
    intro id2 e he
    unfold noCompactEnv0 at he
    simp only at he
    split_ifs at he)⟩

/-! The compaction job runner. -/

/-- Outcome shape of the finalize-and-upload closure: nothing and success on
the zero ULID, nothing and an error on a failure, or exactly the upload
event on success. -/
theorem uploadOne_cases (env : JobEnv) (i : Nat) (id : ULID) :
    (id = zeroULID ∧ uploadOne env i id = ([], none))
    ∨ (∃ e, uploadOne env i id = ([], some e))
    ∨ uploadOne env i id = ([Event.uploaded id], none) := by
  by_cases h0 : (id == zeroULID) = true
  · exact Or.inl ⟨by simpa using h0, by simp [uploadOne, h0]⟩
  · cases h1 : env.injectThanos i id with
    | error e =>
      exact Or.inr (Or.inl ⟨.wrap "failed to finalize the block" e,
        by simp [uploadOne, h0, h1]⟩)
    | ok nm =>
      cases h2 : env.removeTombstones id with
      | some e =>
        exact Or.inr (Or.inl ⟨.wrap "remove tombstones" e,
          by simp [uploadOne, h0, h1, h2]⟩)
      | none =>
        cases h3 : env.verifyIndex id nm.1 nm.2 with
        | some e =>
          exact Or.inr (Or.inl ⟨halt (.wrap "invalid result block" e),
            by simp [uploadOne, h0, h1, h2, h3]⟩)
        | none =>
          cases h4 : env.upload id with
          | some e =>
            exact Or.inr (Or.inl ⟨retry (.wrap "upload of block failed" e),
              by simp [uploadOne, h0, h1, h2, h3, h4]⟩)
          | none => exact Or.inr (Or.inr (by simp [uploadOne, h0, h1, h2, h3, h4]))

/-- The finalize-and-upload closure emits only upload events. -/
theorem uploadOne_events (env : JobEnv) (i : Nat) (id : ULID) :
    ∀ ev ∈ (uploadOne env i id).1, ∃ id2, ev = Event.uploaded id2 := by
  intro ev hev
  rcases uploadOne_cases env i id with ⟨_, h⟩ | ⟨e, h⟩ | h <;> rw [h] at hev
  · simp at hev
  · simp at hev
  · simp at hev
    exact ⟨id, hev⟩

/-- A successful finalize-and-upload of a non-zero output emits exactly its
upload event. -/
theorem uploadOne_success_nonzero (env : JobEnv) (i : Nat) (id : ULID)
    (hz : id ≠ zeroULID) (h : (uploadOne env i id).2 = none) :
    (uploadOne env i id).1 = [Event.uploaded id] := by
  rcases uploadOne_cases env i id with ⟨hid, _⟩ | ⟨e, he⟩ | he
  · exact absurd hid hz
  · rw [he] at h; simp at h
  · rw [he]

/-- Equation of the upload pass on a failing head. -/
theorem uploadLoop_cons_fail (env : JobEnv) (i : Nat) (id : ULID)
    (rest : List (Nat × ULID)) (evs : List Event) (e : GoError)
    (h : uploadOne env i id = (evs, some e)) :
    uploadLoop env ((i, id) :: rest) = (evs, some e) := by
  simp only [uploadLoop]
  rw [h]

/-- Equation of the upload pass on a succeeding head. -/
theorem uploadLoop_cons_ok (env : JobEnv) (i : Nat) (id : ULID)
    (rest : List (Nat × ULID)) (evs : List Event)
    (h : uploadOne env i id = (evs, none)) :
    uploadLoop env ((i, id) :: rest)
      = (evs ++ (uploadLoop env rest).1, (uploadLoop env rest).2) := by
  simp only [uploadLoop]
  rw [h]

/-- The upload pass emits only upload events. -/
theorem uploadLoop_events (env : JobEnv) :
    ∀ l, ∀ ev ∈ (uploadLoop env l).1, ∃ id, ev = Event.uploaded id := by
  intro l
  induction l with
  | nil => intro ev hev; simp [uploadLoop] at hev
  | cons q rest ih =>
    obtain ⟨i, id⟩ := q
    intro ev hev
    cases hu : uploadOne env i id with
    | mk evs r =>
      cases r with
      | some e =>
        rw [uploadLoop_cons_fail env i id rest evs e hu] at hev
        exact uploadOne_events env i id ev (by rw [hu]; exact hev)
      | none =>
        rw [uploadLoop_cons_ok env i id rest evs hu] at hev
        rcases List.mem_append.mp hev with h1 | h1
        · exact uploadOne_events env i id ev (by rw [hu]; exact h1)
        · exact ih ev h1

/-- If some element of the upload pass fails, the pass returns an error. -/
theorem uploadLoop_err_of_mem (env : JobEnv) :
    ∀ l, (∃ p ∈ l, ((uploadOne env p.1 p.2).2).isSome) →
      ((uploadLoop env l).2).isSome := by
  intro l
  induction l with
  | nil => rintro ⟨p, hp, _⟩; exact absurd hp (List.not_mem_nil p)
  | cons q rest ih =>
    rintro ⟨p, hp, hfail⟩
    obtain ⟨i, id⟩ := q
    cases hu : uploadOne env i id with
    | mk evs r =>
      cases r with
      | some e => rw [uploadLoop_cons_fail env i id rest evs e hu]; rfl
      | none =>
        rw [uploadLoop_cons_ok env i id rest evs hu]
        rcases List.mem_cons.mp hp with heq | hp2
        · subst heq
          rw [hu] at hfail
          simp at hfail
        · exact ih ⟨p, hp2, hfail⟩

/-- If the upload pass succeeds, every non-zero output has its upload event
in the emitted events. -/
theorem uploadLoop_complete (env : JobEnv) :
    ∀ l, (uploadLoop env l).2 = none →
      ∀ p ∈ l, p.2 ≠ zeroULID → Event.uploaded p.2 ∈ (uploadLoop env l).1 := by
  intro l
  induction l with
  | nil => intro _ p hp; exact absurd hp (List.not_mem_nil p)
  | cons q rest ih =>
    intro hnone p hp hz
    obtain ⟨i, id⟩ := q
    cases hu : uploadOne env i id with
    | mk evs r =>
      cases r with
      | some e =>
        rw [uploadLoop_cons_fail env i id rest evs e hu] at hnone
        simp at hnone
      | none =>
        rw [uploadLoop_cons_ok env i id rest evs hu] at hnone ⊢
        rcases List.mem_cons.mp hp with heq | hp2
        · subst heq
          have hevs : evs = [Event.uploaded id] := by
            have h2 := uploadOne_success_nonzero env i id hz (by rw [hu])
            rw [hu] at h2
            exact h2
          rw [hevs]
          simp
        · exact List.mem_append.mpr (Or.inr (ih hnone p hp2 hz))

/-- Equation of the retire pass on a failing head. -/
theorem retireLoop_cons_fail (env : JobEnv) (m : Meta) (rest : List Meta)
    (e : GoError) (h : deleteBlock env m.ulid = some e) :
    retireLoop env (m :: rest)
      = ([Event.markForDeletion m.ulid],
          some (retry (.wrap "mark old block for deletion from bucket" e))) := by
  simp only [retireLoop]
  rw [h]

/-- Equation of the retire pass on a succeeding head. -/
theorem retireLoop_cons_ok (env : JobEnv) (m : Meta) (rest : List Meta)
    (h : deleteBlock env m.ulid = none) :
    retireLoop env (m :: rest)
      = (Event.markForDeletion m.ulid :: (retireLoop env rest).1,
          (retireLoop env rest).2) := by
  simp only [retireLoop]
  rw [h]

/-- The retire pass emits only mark-for-deletion events. -/
theorem retireLoop_events (env : JobEnv) :
    ∀ l, ∀ ev ∈ (retireLoop env l).1, ∃ id, ev = Event.markForDeletion id := by
  intro l
  induction l with
  | nil => intro ev hev; simp [retireLoop] at hev
  | cons m rest ih =>
    intro ev hev
    cases hd : deleteBlock env m.ulid with
    | some e =>
      rw [retireLoop_cons_fail env m rest e hd] at hev
      simp at hev
      exact ⟨m.ulid, hev⟩
    | none =>
      rw [retireLoop_cons_ok env m rest hd] at hev
      rcases List.mem_cons.mp hev with rfl | h1
      · exact ⟨m.ulid, rfl⟩
      · exact ih ev h1

/-- The empty-result branch emits only mark-for-deletion events. -/
theorem pruneEmptyBlocks_events (toCompact : List Meta) :
    ∀ ev ∈ pruneEmptyBlocks toCompact, ∃ id, ev = Event.markForDeletion id := by
  intro ev hev
  simp only [pruneEmptyBlocks, List.mem_map] at hev
  obtain ⟨m, _, hm⟩ := hev
  exact ⟨m.ulid, hm.symm⟩

/-- `runCompactionJob` once the merge stage has produced a non-zero output:
it runs the upload pass and, only on its full success, the retire pass. -/
theorem runCompactionJob_upload_stage (env : JobEnv) (job : Job)
    (toCompact : List Meta) (outs : List ULID)
    (h1 : env.mkdirAll = none)
    (h2 : env.plan job.metasByMinTime = .ok toCompact)
    (h3 : toCompact ≠ [])
    (h4 : forEachCheck env toCompact = none)
    (h5 : mergeStep env job = .ok outs)
    (h6 : hasNonZeroULIDs outs = true) :
    runCompactionJob env job =
      match uploadLoop env outs.enum with
      | (evs, some e) => ⟨evs, false, [], some e⟩
      | (evs, none) =>
        match retireLoop env toCompact with
        | (revs, some e) => ⟨evs ++ revs, false, [], some e⟩
        | (revs, none) => ⟨evs ++ revs, true, outs, none⟩ := by
  have hie : toCompact.isEmpty = false := by
    cases toCompact with
    | nil => exact absurd rfl h3
    | cons a l => rfl
  unfold runCompactionJob
  simp only [h1, h2, hie, h4, h5, h6, Bool.false_eq_true, Bool.not_true, if_false]

/-- `runCompactionJob` when the merge finds every output empty: it issues a
deletion mark for exactly the inputs with zero samples and reports
reschedulable success. -/
theorem runCompactionJob_empty_stage (env : JobEnv) (job : Job)
    (toCompact : List Meta) (outs : List ULID)
    (h1 : env.mkdirAll = none)
    (h2 : env.plan job.metasByMinTime = .ok toCompact)
    (h3 : toCompact ≠ [])
    (h4 : forEachCheck env toCompact = none)
    (h5 : mergeStep env job = .ok outs)
    (h6 : hasNonZeroULIDs outs = false) :
    runCompactionJob env job = ⟨pruneEmptyBlocks toCompact, true, [], none⟩ := by
  have hie : toCompact.isEmpty = false := by
    cases toCompact with
    | nil => exact absurd rfl h3
    | cons a l => rfl
  unfold runCompactionJob
  simp only [h1, h2, hie, h4, h5, h6, Bool.false_eq_true, Bool.not_false, if_false,
    if_true]

/-- Claim C1: in every run of `runCompactionJob` the emitted trace is a
block of upload events followed by a block of mark-for-deletion events, so
no input is marked before the uploads; moreover, once the merge has
produced a non-zero output, a successful upload pass has uploaded every
non-zero output before any mark is issued, and a failing
finalize-verify-upload of any output makes the job return an error with no
input marked for deletion. -/
theorem runCompactionJob_no_data_loss (env : JobEnv) (job : Job) :
    (∃ U M, (runCompactionJob env job).trace = U ++ M
       ∧ (∀ ev ∈ U, ∃ id, ev = Event.uploaded id)
       ∧ (∀ ev ∈ M, ∃ id, ev = Event.markForDeletion id))
    ∧ (∀ (toCompact : List Meta) (outs : List ULID),
        env.mkdirAll = none →
        env.plan job.metasByMinTime = .ok toCompact →
        toCompact ≠ [] →
        forEachCheck env toCompact = none →
        mergeStep env job = .ok outs →
        hasNonZeroULIDs outs = true →
        (((uploadLoop env outs.enum).2 = none →
            ∀ p ∈ outs.enum, p.2 ≠ zeroULID →
              Event.uploaded p.2 ∈ (runCompactionJob env job).trace)
          ∧ ((∃ p ∈ outs.enum, ((uploadOne env p.1 p.2).2).isSome) →
              (runCompactionJob env job).err.isSome
              ∧ ∀ id, Event.markForDeletion id ∉ (runCompactionJob env job).trace))) := by
  constructor
  · cases hmk : env.mkdirAll with
    | some e => exact ⟨[], [], by simp [runCompactionJob, hmk], by simp, by simp⟩
    | none =>
      cases hpl : env.plan job.metasByMinTime with
      | error e => exact ⟨[], [], by simp [runCompactionJob, hmk, hpl], by simp, by simp⟩
      | ok tc =>
        cases hie : tc.isEmpty with
        | true => exact ⟨[], [], by simp [runCompactionJob, hmk, hpl, hie], by simp, by simp⟩
        | false =>
          cases hfe : forEachCheck env tc with
          | some e =>
            exact ⟨[], [], by simp [runCompactionJob, hmk, hpl, hie, hfe], by simp, by simp⟩
          | none =>
            cases hms : mergeStep env job with
            | error e =>
              exact ⟨[], [],
                by simp [runCompactionJob, hmk, hpl, hie, hfe, hms], by simp, by simp⟩
            | ok outs =>
              cases hnz : hasNonZeroULIDs outs with
              | false =>
                refine ⟨[], pruneEmptyBlocks tc, ?_, by simp, pruneEmptyBlocks_events tc⟩
                simp [runCompactionJob, hmk, hpl, hie, hfe, hms, hnz]
              | true =>
                rcases hu : uploadLoop env outs.enum with ⟨evs, r⟩
                have hevs : ∀ ev ∈ evs, ∃ id, ev = Event.uploaded id := by
                  intro ev hev
                  exact uploadLoop_events env outs.enum ev (by rw [hu]; exact hev)
                cases r with
                | some e =>
                  refine ⟨evs, [], ?_, hevs, by simp⟩
                  simp [runCompactionJob, hmk, hpl, hie, hfe, hms, hnz, hu]
                | none =>
                  rcases hr : retireLoop env tc with ⟨revs, r2⟩
                  have hrevs : ∀ ev ∈ revs, ∃ id, ev = Event.markForDeletion id := by
                    intro ev hev
                    exact retireLoop_events env tc ev (by rw [hr]; exact hev)
                  cases r2 with
                  | some e =>
                    refine ⟨evs, revs, ?_, hevs, hrevs⟩
                    simp [runCompactionJob, hmk, hpl, hie, hfe, hms, hnz, hu, hr]
                  | none =>
                    refine ⟨evs, revs, ?_, hevs, hrevs⟩
                    simp [runCompactionJob, hmk, hpl, hie, hfe, hms, hnz, hu, hr]
  · intro toCompact outs h1 h2 h3 h4 h5 h6
    have hrc := runCompactionJob_upload_stage env job toCompact outs h1 h2 h3 h4 h5 h6
    constructor
    · intro hnone p hp hz
      have hmem := uploadLoop_complete env outs.enum hnone p hp hz
      rw [hrc]
      rcases hu : uploadLoop env outs.enum with ⟨evs, r⟩
      rw [hu] at hnone hmem
      simp only at hnone hmem
      subst hnone
      rcases hr : retireLoop env toCompact with ⟨revs, r2⟩
      cases r2 with
      | some e => simpa using List.mem_append.mpr (Or.inl hmem)
      | none => simpa using List.mem_append.mpr (Or.inl hmem)
    · intro hex
      have hsome := uploadLoop_err_of_mem env outs.enum hex
      rw [hrc]
      rcases hu : uploadLoop env outs.enum with ⟨evs, r⟩
      rw [hu] at hsome
      cases r with
      | none => simp at hsome
      | some e =>
        refine ⟨rfl, ?_⟩
        intro id hmem
        simp only at hmem
        obtain ⟨id2, heq⟩ := uploadLoop_events env outs.enum _ (by rw [hu]; exact hmem)
        simp at heq

/-- Witness for claim C1 at a concrete environment whose single output
upload fails: the job errors out and no input is marked. -/
theorem runCompactionJob_no_data_loss_witness :
    (runCompactionJob jobEnvUploadFail job0).err.isSome
    ∧ Event.markForDeletion 1 ∉ (runCompactionJob jobEnvUploadFail job0).trace := by
  have h := ((runCompactionJob_no_data_loss jobEnvUploadFail job0).2 [meta1, meta2] [7]
    rfl rfl (by simp) rfl rfl rfl).2 ⟨(0, 7), by simp [List.enum], rfl⟩
  exact ⟨h.1, h.2 1⟩

/-- Claim C4: when every merge output is the zero ULID, `runCompactionJob`
issues a deletion mark for exactly the inputs of the plan with zero samples
and returns reschedule with no error and no output IDs. -/
theorem runCompactionJob_empty_result (env : JobEnv) (job : Job)
    (toCompact : List Meta) (outs : List ULID)
    (h1 : env.mkdirAll = none)
    (h2 : env.plan job.metasByMinTime = .ok toCompact)
    (h3 : toCompact ≠ [])
    (h4 : forEachCheck env toCompact = none)
    (h5 : mergeStep env job = .ok outs)
    (h6 : hasNonZeroULIDs outs = false) :
    runCompactionJob env job =
      ⟨(toCompact.filter (fun m => m.numSamples == 0)).map
        (fun m => Event.markForDeletion m.ulid), true, [], none⟩ :=
  runCompactionJob_empty_stage env job toCompact outs h1 h2 h3 h4 h5 h6

/-- Witness for claim C4 at a concrete environment whose merge returns the
zero ULID over one empty and one non-empty input. -/
theorem runCompactionJob_empty_result_witness :
    runCompactionJob jobEnvAllZero job0
      = ⟨[Event.markForDeletion 1], true, [], none⟩ :=
  runCompactionJob_empty_result jobEnvAllZero job0 [meta1, meta2] [zeroULID]
    rfl rfl (by simp) rfl rfl rfl

/-! Injectivity of the group-key rendering. -/

/-- `Nat.digitChar` is injective below ten. -/
theorem digitChar_fin_inj :
    ∀ a b : Fin 10, Nat.digitChar a.val = Nat.digitChar b.val → a = b := by decide

/-- `Nat.digitChar` renders digits below ten. -/
theorem digitChar_isDigit : ∀ a : Fin 10, (Nat.digitChar a.val).isDigit = true := by decide

/-- The decimal rendering is never empty. -/
theorem natDigits_ne_nil (n : Nat) : natDigits n ≠ [] := by
  unfold natDigits
  split
  · simp
  · simp

/-- Every character of the decimal rendering is a digit. -/
theorem natDigits_digits (n : Nat) : ∀ c ∈ natDigits n, c.isDigit = true := by
  induction n using Nat.strong_induction_on with
  | _ n ih =>
    unfold natDigits
    split
    case isTrue h =>
      intro c hc
      simp only [List.mem_singleton] at hc
      subst hc
      exact digitChar_isDigit ⟨n, h⟩
    case isFalse h =>
      intro c hc
      rcases List.mem_append.mp hc with h1 | h1
      · exact ih (n / 10) (Nat.div_lt_self (by omega) (by omega)) c h1
      · simp only [List.mem_singleton] at h1
        subst h1
        exact digitChar_isDigit ⟨n % 10, Nat.mod_lt _ (by omega)⟩

/-- The decimal rendering of naturals is injective. -/
theorem natDigits_inj : ∀ m n : Nat, natDigits m = natDigits n → m = n := by
  intro m
  induction m using Nat.strong_induction_on with
  | _ m ih =>
    intro n h
    by_cases hm : m < 10 <;> by_cases hn : n < 10
    · unfold natDigits at h
      rw [if_pos hm, if_pos hn] at h
      simp only [List.cons.injEq, and_true] at h
      have := digitChar_fin_inj ⟨m, hm⟩ ⟨n, hn⟩ h
      exact congrArg Fin.val this
    · unfold natDigits at h
      rw [if_pos hm, if_neg hn] at h
      have hlen := congrArg List.length h
      simp only [List.length_singleton, List.length_append] at hlen
      have := List.length_pos.mpr (natDigits_ne_nil (n / 10))
      omega
    · unfold natDigits at h
      rw [if_neg hm, if_pos hn] at h
      have hlen := congrArg List.length h
      simp only [List.length_singleton, List.length_append] at hlen
      have := List.length_pos.mpr (natDigits_ne_nil (m / 10))
      omega
    · unfold natDigits at h
      rw [if_neg hm, if_neg hn] at h
      obtain ⟨h1, h2⟩ := List.append_inj' h (by rfl)
      have hdiv := ih (m / 10) (Nat.div_lt_self (by omega) (by omega)) (n / 10) h1
      simp only [List.cons.injEq, and_true] at h2
      have hmod := congrArg Fin.val
        (digitChar_fin_inj ⟨m % 10, Nat.mod_lt _ (by omega)⟩
          ⟨n % 10, Nat.mod_lt _ (by omega)⟩ h2)
      simp only at hmod hdiv
      omega

/-- The minus sign does not occur in the decimal rendering. -/
theorem natDigits_no_minus (n : Nat) : '-' ∉ natDigits n := by
  intro h
  exact absurd (natDigits_digits n _ h) (by decide)

/-- The separator does not occur in the decimal rendering. -/
theorem natDigits_no_at (n : Nat) : '@' ∉ natDigits n := by
  intro h
  exact absurd (natDigits_digits n _ h) (by decide)

/-- The decimal rendering of integers is injective. -/
theorem intChars_inj : ∀ r1 r2 : Int, intChars r1 = intChars r2 → r1 = r2 := by
  intro r1 r2 h
  cases r1 with
  | ofNat m1 =>
    cases r2 with
    | ofNat m2 =>
      simp only [intChars] at h
      exact congrArg Int.ofNat (natDigits_inj _ _ h)
    | negSucc m2 =>
      simp only [intChars] at h
      exact absurd (h ▸ List.mem_cons_self '-' (natDigits (m2 + 1)))
        (natDigits_no_minus m1)
  | negSucc m1 =>
    cases r2 with
    | ofNat m2 =>
      simp only [intChars] at h
      exact absurd (h ▸ List.mem_cons_self '-' (natDigits (m1 + 1)))
        (natDigits_no_minus m2)
    | negSucc m2 =>
      simp only [intChars, List.cons.injEq, true_and] at h
      have h2 := natDigits_inj _ _ h
      exact congrArg Int.negSucc (by omega)

/-- The separator does not occur in the integer rendering. -/
theorem intChars_no_at : ∀ r : Int, '@' ∉ intChars r := by
  intro r h
  cases r with
  | ofNat m => exact natDigits_no_at m h
  | negSucc m =>
    rcases List.mem_cons.mp h with h1 | h1
    · exact absurd h1 (by decide)
    · exact natDigits_no_at (m + 1) h1

/-- Splitting at a separator absent from both prefixes is unambiguous. -/
theorem append_sep_inj :
    ∀ l1 l2 r1 r2 : List Char, '@' ∉ l1 → '@' ∉ l2 →
      l1 ++ '@' :: r1 = l2 ++ '@' :: r2 → l1 = l2 ∧ r1 = r2 := by
  intro l1
  induction l1 with
  | nil =>
    intro l2 r1 r2 _ hl2 h
    cases l2 with
    | nil =>
      simp only [List.nil_append, List.cons.injEq, true_and] at h
      exact ⟨rfl, h⟩
    | cons c t =>
      simp only [List.nil_append, List.cons_append, List.cons.injEq] at h
      exact absurd (h.1 ▸ List.mem_cons_self c t) hl2
  | cons c t ih =>
    intro l2 r1 r2 hl1 hl2 h
    cases l2 with
    | nil =>
      simp only [List.cons_append, List.nil_append, List.cons.injEq] at h
      exact absurd (h.1 ▸ List.mem_cons_self c t) hl1
    | cons c2 t2 =>
      simp only [List.cons_append, List.cons.injEq] at h
      obtain ⟨ht, hr⟩ := ih t2 r1 r2 (fun hx => hl1 (List.mem_cons_of_mem c hx))
        (fun hx => hl2 (List.mem_cons_of_mem c2 hx)) h.2
      exact ⟨by rw [h.1, ht], hr⟩

/-- The group-key rendering `fmt.Sprintf("%d@%v", res, hash)` is injective in
the resolution and the label hash. -/
theorem defaultGroupKey_inj (r1 r2 : Int) (h1 h2 : Nat)
    (h : defaultGroupKey r1 h1 = defaultGroupKey r2 h2) : r1 = r2 ∧ h1 = h2 := by
  unfold defaultGroupKey at h
  injection h with hd
  obtain ⟨ha, hb⟩ := append_sep_inj _ _ _ _ (intChars_no_at r1) (intChars_no_at r2) hd
  exact ⟨intChars_inj _ _ ha, natDigits_inj _ _ hb⟩

/-- Invariant of the grouping loop: along the loop, the accumulated jobs
have pairwise distinct keys, each key renders the resolution and label hash
of its job, each job holds exactly the processed blocks of its key in
order, and the job keys are exactly the keys occurring among the processed
blocks. -/
theorem groupsLoop_invariant (hashL : Labels → Nat) (userID : String) :
    ∀ (blocks processed : List Meta) (acc : List Job),
      (acc.map Job.key).Nodup →
      (∀ j ∈ acc, j.key = defaultGroupKey j.resolution (hashL j.lbls)) →
      (∀ j ∈ acc, j.metasByMinTime =
        processed.filter (fun m => DefaultGroupKey hashL m == j.key)) →
      (∀ m ∈ processed, ∃ j ∈ acc, j.key = DefaultGroupKey hashL m) →
      (∀ j ∈ acc, ∃ m ∈ processed, DefaultGroupKey hashL m = j.key) →
      ((groupsLoop hashL userID blocks acc).map Job.key).Nodup
      ∧ (∀ j ∈ groupsLoop hashL userID blocks acc,
          j.key = defaultGroupKey j.resolution (hashL j.lbls))
      ∧ (∀ j ∈ groupsLoop hashL userID blocks acc,
          j.metasByMinTime = (processed ++ blocks).filter
            (fun m => DefaultGroupKey hashL m == j.key))
      ∧ (∀ m ∈ processed ++ blocks, ∃ j ∈ groupsLoop hashL userID blocks acc,
          j.key = DefaultGroupKey hashL m)
      ∧ (∀ j ∈ groupsLoop hashL userID blocks acc,
          ∃ m ∈ processed ++ blocks, DefaultGroupKey hashL m = j.key) := by
  intro blocks
  induction blocks with
  | nil =>
    intro processed acc h1 h2 h3 h4 h5
    simpa [groupsLoop] using ⟨h1, h2, h3, h4, h5⟩
  | cons m rest ih =>
    intro processed acc h1 h2 h3 h4 h5
    by_cases hex : (acc.any (fun j => j.key == DefaultGroupKey hashL m)) = true
    · -- a job with this key exists: append the meta to it
      have hstep : groupsLoop hashL userID (m :: rest) acc
          = groupsLoop hashL userID rest
              (acc.map (fun j => if j.key == DefaultGroupKey hashL m
                then j.appendMeta m else j)) := by
        simp only [groupsLoop, hex, if_true]
      have hkeyf : ∀ j : Job,
          (if j.key == DefaultGroupKey hashL m then j.appendMeta m else j).key
            = j.key := by
        intro j
        by_cases hj : (j.key == DefaultGroupKey hashL m) = true
        · simp [hj, Job.appendMeta]
        · simp [hj]
      have hkeys : (acc.map (fun j => if j.key == DefaultGroupKey hashL m
          then j.appendMeta m else j)).map Job.key = acc.map Job.key := by
        rw [List.map_map]
        exact List.map_congr_left (fun j _ => hkeyf j)
      rw [hstep]
      have hres := ih (processed ++ [m])
        (acc.map (fun j => if j.key == DefaultGroupKey hashL m
          then j.appendMeta m else j))
        (by rw [hkeys]; exact h1)
        (by
          intro j2 hj2
          obtain ⟨j, hj, rfl⟩ := List.mem_map.mp hj2
          by_cases hjk : (j.key == DefaultGroupKey hashL m) = true
          · simpa [hjk, Job.appendMeta] using h2 j hj
          · simpa [hjk] using h2 j hj)
        (by
          intro j2 hj2
          obtain ⟨j, hj, rfl⟩ := List.mem_map.mp hj2
          by_cases hjk : (j.key == DefaultGroupKey hashL m) = true
          · have hkm : DefaultGroupKey hashL m = j.key := (beq_iff_eq.mp hjk).symm
            simp only [if_pos hjk, Job.appendMeta, List.filter_append]
            rw [h3 j hj]
            simp [← hkm]
          · have hkm : ¬(DefaultGroupKey hashL m == j.key) = true := by
              intro hc
              exact hjk (by rw [beq_iff_eq.mp hc]; exact beq_self_eq_true _)
            simp only [if_neg hjk, List.filter_append]
            rw [h3 j hj]
            simp [hkm])
        (by
          intro m2 hm2
          have haux : ∀ j ∈ acc, ∃ j2 ∈ acc.map (fun j => if j.key == DefaultGroupKey hashL m
              then j.appendMeta m else j), j2.key = j.key := by
            intro j hj
            exact ⟨_, List.mem_map_of_mem _ hj, hkeyf j⟩
          rcases List.mem_append.mp hm2 with hp | hp
          · obtain ⟨j, hj, hjk⟩ := h4 m2 hp
            obtain ⟨j2, hj2, hj2k⟩ := haux j hj
            exact ⟨j2, hj2, by rw [hj2k, hjk]⟩
          · simp only [List.mem_singleton] at hp
            subst hp
            obtain ⟨j, hj, hjk⟩ := List.any_eq_true.mp hex
            obtain ⟨j2, hj2, hj2k⟩ := haux j hj
            exact ⟨j2, hj2, by rw [hj2k, beq_iff_eq.mp hjk]⟩)
        (by
          intro j2 hj2
          obtain ⟨j, hj, rfl⟩ := List.mem_map.mp hj2
          obtain ⟨m2, hm2, hm2k⟩ := h5 j hj
          exact ⟨m2, List.mem_append_left _ hm2, by rw [hm2k, hkeyf j]⟩)
      simpa [List.append_assoc] using hres
    · -- no job with this key yet: create one
      have hstep : groupsLoop hashL userID (m :: rest) acc
          = groupsLoop hashL userID rest
              (acc ++ [(NewJob userID (DefaultGroupKey hashL m) m.lbls m.resolution
                "" false 0 "").appendMeta m]) := by
        simp only [groupsLoop, hex]
        rfl
      have hnotin : ∀ j ∈ acc, j.key ≠ DefaultGroupKey hashL m := by
        intro j hj hc
        exact hex (List.any_eq_true.mpr ⟨j, hj, by rw [hc]; exact beq_self_eq_true _⟩)
      rw [hstep]
      have hres := ih (processed ++ [m])
        (acc ++ [(NewJob userID (DefaultGroupKey hashL m) m.lbls m.resolution
          "" false 0 "").appendMeta m])
        (by
          simp only [List.map_append, List.map_singleton]
          rw [List.nodup_append]
          refine ⟨h1, List.nodup_singleton _, ?_⟩
          intro x hx hx2
          simp only [NewJob, Job.appendMeta, List.mem_singleton] at hx2
          obtain ⟨j, hj, hjk⟩ := List.mem_map.mp hx
          exact hnotin j hj (by rw [hjk]; exact hx2))
        (by
          intro j2 hj2
          rcases List.mem_append.mp hj2 with hj | hj
          · exact h2 j2 hj
          · simp only [List.mem_singleton] at hj
            subst hj
            rfl)
        (by
          intro j2 hj2
          rcases List.mem_append.mp hj2 with hj | hj
          · have hkm : ¬(DefaultGroupKey hashL m == j2.key) = true := by
              intro hc
              exact hnotin j2 hj (beq_iff_eq.mp hc).symm
            simp only [List.filter_append]
            rw [h3 j2 hj]
            simp [hkm]
          · simp only [List.mem_singleton] at hj
            subst hj
            simp only [NewJob, Job.appendMeta, List.filter_append]
            have hpf : processed.filter
                (fun m2 => DefaultGroupKey hashL m2 == DefaultGroupKey hashL m) = [] := by
              rw [List.filter_eq_nil_iff]
              intro m2 hm2 hc
              obtain ⟨j, hj, hjk⟩ := h4 m2 hm2
              exact hnotin j hj (by rw [hjk, beq_iff_eq.mp hc])
            simp only at hpf ⊢
            rw [hpf]
            simp)
        (by
          intro m2 hm2
          rcases List.mem_append.mp hm2 with hp | hp
          · obtain ⟨j, hj, hjk⟩ := h4 m2 hp
            exact ⟨j, List.mem_append_left _ hj, hjk⟩
          · simp only [List.mem_singleton] at hp
            subst hp
            exact ⟨_, List.mem_append_right _ (List.mem_singleton_self _), rfl⟩)
        (by
          intro j2 hj2
          rcases List.mem_append.mp hj2 with hj | hj
          · obtain ⟨m2, hm2, hm2k⟩ := h5 j2 hj
            exact ⟨m2, List.mem_append_left _ hm2, hm2k⟩
          · simp only [List.mem_singleton] at hj
            subst hj
            exact ⟨m, List.mem_append_right _ (List.mem_singleton_self _), rfl⟩)
      simpa [List.append_assoc] using hres

/-- Claim C5: `DefaultGrouper.Groups` partitions the blocks by their
`(DownsampleResolution, hash(ExternalLabels))` pair: the returned jobs are
sorted by `Key` ascending, carry pairwise distinct pairs, each job holds
exactly the blocks of its pair (in input order), every job pair occurs
among the blocks and every block pair has its job. -/
theorem defaultGrouper_groups_partition (hashL : Labels → Nat) (userID : String)
    (blocks : List Meta) :
    ∃ jobs, Groups hashL userID blocks = .ok jobs
      ∧ jobs.Pairwise (fun a b => a.key ≤ b.key)
      ∧ (jobs.map (fun j => (j.resolution, hashL j.lbls))).Nodup
      ∧ (∀ j ∈ jobs, j.metasByMinTime = blocks.filter
          (fun m => decide (m.resolution = j.resolution ∧ hashL m.lbls = hashL j.lbls)))
      ∧ (∀ j ∈ jobs, ∃ m ∈ blocks,
          m.resolution = j.resolution ∧ hashL m.lbls = hashL j.lbls)
      ∧ (∀ m ∈ blocks, ∃ j ∈ jobs,
          j.resolution = m.resolution ∧ hashL j.lbls = hashL m.lbls) := by
  obtain ⟨h1, h2, h3, h4, h5⟩ := groupsLoop_invariant hashL userID blocks [] []
    (by simp) (by simp) (by simp) (by simp) (by simp)
  simp only [List.nil_append] at h3 h4 h5
  refine ⟨(groupsLoop hashL userID blocks []).mergeSort
    (fun a b => decide (a.key ≤ b.key)), rfl, ?_, ?_, ?_, ?_, ?_⟩
  · have htrans : ∀ a b c : Job, decide (a.key ≤ b.key) = true →
        decide (b.key ≤ c.key) = true → decide (a.key ≤ c.key) = true :=
      fun a b c hab hbc =>
        decide_eq_true (le_trans (of_decide_eq_true hab) (of_decide_eq_true hbc))
    have htotal : ∀ a b : Job,
        (decide (a.key ≤ b.key) || decide (b.key ≤ a.key)) = true := by
      intro a b
      rcases le_total a.key b.key with h | h
      · simp [h]
      · simp [h]
    have hsort := List.sorted_mergeSort htrans htotal
      (groupsLoop hashL userID blocks [])
    exact hsort.imp (fun h => of_decide_eq_true h)
  · have hperm : ((groupsLoop hashL userID blocks []).mergeSort
        (fun a b => decide (a.key ≤ b.key))).Perm
          (groupsLoop hashL userID blocks []) :=
      List.mergeSort_perm _ _
    have hkeysj : (((groupsLoop hashL userID blocks []).mergeSort
        (fun a b => decide (a.key ≤ b.key))).map Job.key).Nodup :=
      ((hperm.map Job.key).nodup_iff).mpr h1
    have hcong : ((groupsLoop hashL userID blocks []).mergeSort
        (fun a b => decide (a.key ≤ b.key))).map Job.key
        = (((groupsLoop hashL userID blocks []).mergeSort
            (fun a b => decide (a.key ≤ b.key))).map
              (fun j => (j.resolution, hashL j.lbls))).map
            (fun p => defaultGroupKey p.1 p.2) := by
      rw [List.map_map]
      exact List.map_congr_left (fun j hj => h2 j (List.mem_mergeSort.mp hj))
    exact List.Nodup.of_map _ (hcong ▸ hkeysj)
  · intro j hj
    have hjb := List.mem_mergeSort.mp hj
    rw [h3 j hjb]
    apply List.filter_congr
    intro m _
    by_cases hpq : m.resolution = j.resolution ∧ hashL m.lbls = hashL j.lbls
    · have hk : DefaultGroupKey hashL m = j.key := by
        rw [h2 j hjb]
        unfold DefaultGroupKey
        rw [hpq.1, hpq.2]
      simp [hk, hpq]
    · have hk : DefaultGroupKey hashL m ≠ j.key := by
        intro hc
        rw [h2 j hjb] at hc
        have hinj := defaultGroupKey_inj _ _ _ _ hc
        exact hpq ⟨hinj.1, hinj.2⟩
      simp [hk, hpq]
  · intro j hj
    have hjb := List.mem_mergeSort.mp hj
    obtain ⟨m, hm, hmk⟩ := h5 j hjb
    have hkey : defaultGroupKey m.resolution (hashL m.lbls)
        = defaultGroupKey j.resolution (hashL j.lbls) := by
      rw [← h2 j hjb]
      exact hmk
    have hinj := defaultGroupKey_inj _ _ _ _ hkey
    exact ⟨m, hm, hinj.1, hinj.2⟩
  · intro m hm
    obtain ⟨j, hjb, hjk⟩ := h4 m hm
    have hkey : defaultGroupKey j.resolution (hashL j.lbls)
        = defaultGroupKey m.resolution (hashL m.lbls) := by
      rw [← h2 j hjb]
      exact hjk
    have hinj := defaultGroupKey_inj _ _ _ _ hkey
    exact ⟨j, List.mem_mergeSort.mpr hjb, hinj.1, hinj.2⟩
